import Mathlib

/-!
Verification of the page/navigation lifecycle manager and namespaced state
store of the `docu-processing` repository (`src/streamlit_ui/`).

The embedding models Python dictionaries as insertion-ordered association
lists (Python 3.7+ dict semantics: assigning to an existing key overwrites
in place, assigning a new key appends at the end, `del` removes the entry).
Rendering side effects (`st.markdown`, `st.error`, ...) and lifecycle hook
invocations are recorded as an event trace; an exception raised by Python
code is modelled with `Except`.  The sidebar widget is external to the
repository, so `run` takes the sidebar's selection (the return value of
`render_sidebar`) as an input, `none` meaning "no selection" (sidebar
disabled or no items).  Logging calls only produce log events or nothing.
-/

namespace StreamlitUI

/-! ## Insertion-ordered dictionaries (Python `dict` semantics) -/

/-- Lookup in an insertion-ordered dictionary (`d[k]` / `d.get(k)`). -/
def dictGet? {β : Type} : List (String × β) → String → Option β
  | [], _ => none
  | (k, v) :: rest, key => if k = key then some v else dictGet? rest key

/-- `d.get(key, default)`. -/
def dictGetD {β : Type} (d : List (String × β)) (key : String) (dflt : β) : β :=
  (dictGet? d key).getD dflt

/-- `key in d`. -/
def dictMem {β : Type} (d : List (String × β)) (key : String) : Bool :=
  (dictGet? d key).isSome

/-- `d[key] = v`: overwrite in place if the key is present, else append
(Python 3.7+ insertion-order semantics). -/
def dictInsert {β : Type} : List (String × β) → String → β → List (String × β)
  | [], key, v => [(key, v)]
  | (k, w) :: rest, key, v =>
      if k = key then (k, v) :: rest else (k, w) :: dictInsert rest key v

/-- `del d[key]` (on a dict with unique keys this removes the single entry). -/
def dictRemove {β : Type} (d : List (String × β)) (key : String) : List (String × β) :=
  d.filter (fun e => !(e.1 == key))

/-- `list(d.keys())`. -/
def dictKeys {β : Type} (d : List (String × β)) : List String :=
  d.map Prod.fst

theorem dictGet?_insert_self {β : Type} (d : List (String × β)) (key : String) (v : β) :
    dictGet? (dictInsert d key v) key = some v := by
  induction d with
  | nil => simp [dictInsert, dictGet?]
  | cons hd tl ih =>
    obtain ⟨k, w⟩ := hd
    by_cases h : k = key
    · simp [dictInsert, dictGet?, h]
    · simp [dictInsert, dictGet?, h, ih]

theorem dictGetD_insert_self {β : Type} (d : List (String × β)) (key : String) (v dflt : β) :
    dictGetD (dictInsert d key v) key dflt = v := by
  simp [dictGetD, dictGet?_insert_self]

theorem dictMem_insert_self {β : Type} (d : List (String × β)) (key : String) (v : β) :
    dictMem (dictInsert d key v) key = true := by
  simp [dictMem, dictGet?_insert_self]

theorem dictGetD_of_not_mem {β : Type} (d : List (String × β)) (key : String) (dflt : β)
    (h : dictMem d key = false) : dictGetD d key dflt = dflt := by
  unfold dictMem at h
  unfold dictGetD
  cases hg : dictGet? d key with
  | none => simp
  | some v => rw [hg] at h; simp at h

/-! ## Namespaced state store (`src/streamlit_ui/utils/state.py`, `StateManager`)

`st.session_state` is modelled as an insertion-ordered dictionary from
namespace strings to inner dictionaries.  All `StateManager` methods thread
the session state explicitly; methods that return a value return it paired
with the possibly-extended session state (because `_ensure_namespace`
mutates). -/

/-- The session-state backing store: namespace string to inner mapping. -/
def SessionSt (α : Type) : Type := List (String × List (String × α))

/-- `StateManager._ensure_namespace`: create the namespace with an empty
inner mapping if it is absent. -/
def ensure_namespace {α : Type} (ss : SessionSt α) (ns : String) : SessionSt α :=
  if dictMem ss ns then ss else dictInsert ss ns []

/-- `StateManager.set`: ensure the namespace, then assign the key in the
inner mapping. -/
def sm_set {α : Type} (ss : SessionSt α) (ns key : String) (v : α) : SessionSt α :=
  let ss1 := ensure_namespace ss ns
  dictInsert ss1 ns (dictInsert (dictGetD ss1 ns []) key v)

/-- `StateManager.get`: ensure the namespace, then `inner.get(key, default)`. -/
def sm_get {α : Type} (ss : SessionSt α) (ns key : String) (dflt : α) : α × SessionSt α :=
  let ss1 := ensure_namespace ss ns
  (dictGetD (dictGetD ss1 ns []) key dflt, ss1)

/-- `StateManager.delete`: ensure the namespace, then delete the key if
present in the inner mapping. -/
def sm_delete {α : Type} (ss : SessionSt α) (ns key : String) : SessionSt α :=
  let ss1 := ensure_namespace ss ns
  if dictMem (dictGetD ss1 ns []) key then
    dictInsert ss1 ns (dictRemove (dictGetD ss1 ns []) key)
  else ss1

/-- `StateManager.clear`: `st.session_state[ns] = \x7b\x7d` — assigns an empty
inner mapping, creating the namespace entry if it was absent. -/
def sm_clear {α : Type} (ss : SessionSt α) (ns : String) : SessionSt α :=
  dictInsert ss ns []

/-- `StateManager.get_all`: ensure the namespace, then return a copy of the
inner mapping. -/
def sm_get_all {α : Type} (ss : SessionSt α) (ns : String) :
    List (String × α) × SessionSt α :=
  let ss1 := ensure_namespace ss ns
  (dictGetD ss1 ns [], ss1)

theorem ensure_namespace_of_not_mem {α : Type} (ss : SessionSt α) (ns : String)
    (h : dictMem ss ns = false) : ensure_namespace ss ns = dictInsert ss ns [] := by
  simp [ensure_namespace, h]

/-- C8: set-then-get round-trips the exact value; clear-then-get_all yields the
empty mapping while the namespace entry itself remains present; and `get` on a
brand-new namespace returns the provided default (and, being a total function,
never raises). -/
theorem stateManager_contract {α : Type} (ss : SessionSt α) (ns key : String) (v dflt : α) :
    (sm_get (sm_set ss ns key v) ns key dflt).1 = v ∧
    (sm_get_all (sm_clear ss ns) ns).1 = ([] : List (String × α)) ∧
    dictMem (sm_clear ss ns) ns = true ∧
    (dictMem ss ns = false → (sm_get ss ns key dflt).1 = dflt) := by
  refine ⟨?_, ?_, ?_, ?_⟩
  · unfold sm_get sm_set ensure_namespace
    simp [dictMem_insert_self, dictGetD_insert_self]
  · unfold sm_get_all sm_clear ensure_namespace
    simp [dictMem_insert_self, dictGetD_insert_self]
  · exact dictMem_insert_self ss ns []
  · intro h
    unfold sm_get
    rw [ensure_namespace_of_not_mem ss ns h]
    simp [dictGetD, dictGet?_insert_self, dictGet?]

/-- Witness for `stateManager_contract` at a concrete session state. -/
theorem stateManager_contract_witness :
    (sm_get (sm_set ([] : SessionSt Nat) "chat_page" "k" 7) "chat_page" "k" 0).1 = 7 ∧
    (sm_get_all (sm_clear ([] : SessionSt Nat) "chat_page") "chat_page").1 = [] ∧
    dictMem (sm_clear ([] : SessionSt Nat) "chat_page") "chat_page" = true ∧
    (dictMem ([] : SessionSt Nat) "chat_page" = false →
      (sm_get ([] : SessionSt Nat) "chat_page" "k" 0).1 = 0) :=
  stateManager_contract [] "chat_page" "k" 7 0

/-! ## Pages and the application registry (`src/streamlit_ui/core/`)

`Page` keeps only the data attributes (`name`, `icon`, `description`); the
behaviour of its overridable methods (`render`, `on_init`, `on_load`,
`on_unload`) is supplied to `run` as oracles saying which invocations raise,
and each invocation is recorded in the event trace. -/

/-- Data attributes of `Page.__init__` (`src/streamlit_ui/core/page.py`). -/
structure Page where
  name : String
  icon : String
  description : String
deriving DecidableEq

/-- `Page.get_display_name`: the f-string icon-space-name. -/
def get_display_name (p : Page) : String := p.icon ++ " " ++ p.name

/-- One entry of `StreamlitApp.navigation_items` (the dict literal built in
`add_page`). -/
structure NavItem where
  name : String
  icon : String
  display : String
deriving DecidableEq

/-- A registered event callback: its identity plus whether invoking it
raises. -/
structure Cb where
  id : Nat
  fails : Bool
deriving DecidableEq

/-- Mutable attributes of `StreamlitApp` relevant to the registry/lifecycle
core.  `app_started` models the `st.session_state` flag keyed
"app" ++ "_initialized" that guards the one-time `on_app_start` firing. -/
structure AppState where
  pages : List (String × Page)
  navigation_items : List NavItem
  current_page : Option String
  callbacks : List (String × List Cb)
  app_started : Bool
deriving DecidableEq

/-- `StreamlitApp.__init__`: empty registry, empty navigation, no current
page, the three recognized callback events each with an empty list. -/
def initApp : AppState :=
  { pages := []
    navigation_items := []
    current_page := none
    callbacks := [("on_page_change", []), ("on_app_start", []), ("on_app_end", [])]
    app_started := false }

/-- `StreamlitApp.add_page`: assign `self.pages[page.name] = page` and
unconditionally append a navigation entry (the `self.logger.info` call has
no state effect). -/
def add_page (st : AppState) (p : Page) : AppState :=
  { st with
    pages := dictInsert st.pages p.name p
    navigation_items :=
      st.navigation_items ++ [⟨p.name, p.icon, get_display_name p⟩] }

/-- `StreamlitApp.remove_page`: if present, delete from `pages` and filter
the navigation list by name; otherwise no-op. -/
def remove_page (st : AppState) (page_name : String) : AppState :=
  if dictMem st.pages page_name then
    { st with
      pages := dictRemove st.pages page_name
      navigation_items :=
        st.navigation_items.filter (fun item => !(item.name == page_name)) }
  else st

/-- `StreamlitApp.add_callback`: append only when `event` is a key of
`self.callbacks`; otherwise fall through (no raise, returns `self`). -/
def add_callback (st : AppState) (event : String) (cb : Cb) : AppState :=
  if dictMem st.callbacks event then
    { st with
      callbacks :=
        dictInsert st.callbacks event (dictGetD st.callbacks event [] ++ [cb]) }
  else st

/-! ## Event traces and callback dispatch -/

/-- Observable effects of one `run` cycle: lifecycle hook invocations, the
render outcome, callback invocations and log lines, and the two
informational branches. -/
inductive Event where
  | unload (name : String)
  | initE (name : String)
  | load (name : String)
  | rendered (name : String)
  | errorShown (name : String)
  | logError (name : String)
  | cbInvoked (id : Nat)
  | cbLogError (id : Nat)
  | info
  | warning
deriving DecidableEq

/-- Invoking a registered callback: raises exactly when `cb.fails`. -/
def callbackCall (cb : Cb) : Except String Unit :=
  if cb.fails then Except.error "callback raised" else Except.ok ()

/-- The `for callback in ...: try callback() except ...: log` loop of
`StreamlitApp._execute_callbacks`, as the trace it produces: each callback
is invoked in order; a failure is logged and the loop continues. -/
def execCbList : List Cb → List Event
  | [] => []
  | cb :: rest =>
      Event.cbInvoked cb.id ::
        ((match callbackCall cb with
          | Except.ok _ => []
          | Except.error _ => [Event.cbLogError cb.id]) ++ execCbList rest)

/-- `StreamlitApp._execute_callbacks`: iterate over
`self.callbacks.get(event, [])`. -/
def execute_callbacks (st : AppState) (event : String) : List Event :=
  execCbList (dictGetD st.callbacks event [])

/-- The callback ids invoked in a trace, in order. -/
def invokedIds (tr : List Event) : List Nat :=
  tr.filterMap (fun e => match e with | Event.cbInvoked i => some i | _ => none)

/-- The callback ids whose failure was logged in a trace, in order. -/
def loggedIds (tr : List Event) : List Nat :=
  tr.filterMap (fun e => match e with | Event.cbLogError i => some i | _ => none)

theorem invokedIds_execCbList (cbs : List Cb) :
    invokedIds (execCbList cbs) = cbs.map Cb.id := by
  induction cbs with
  | nil => rfl
  | cons cb rest ih =>
    by_cases h : cb.fails <;>
      simp [execCbList, callbackCall, h, invokedIds, List.filterMap_append] at * <;>
      simpa [invokedIds] using ih

theorem loggedIds_execCbList (cbs : List Cb) :
    loggedIds (execCbList cbs) = (cbs.filter Cb.fails).map Cb.id := by
  induction cbs with
  | nil => rfl
  | cons cb rest ih =>
    by_cases h : cb.fails <;>
      simp [execCbList, callbackCall, h, loggedIds, List.filterMap_append,
        List.filter_cons] at * <;>
      simpa [loggedIds] using ih

/-- C5: firing an event invokes every callback registered for it, in
registration order, and logs (rather than propagates) each individual
failure without skipping later callbacks — `execute_callbacks` is a total
function into a plain trace, and its invocation list is the full
registration list even when some callbacks fail. -/
theorem execute_callbacks_contract (st : AppState) (event : String) :
    invokedIds (execute_callbacks st event) =
      (dictGetD st.callbacks event []).map Cb.id ∧
    loggedIds (execute_callbacks st event) =
      ((dictGetD st.callbacks event []).filter Cb.fails).map Cb.id := by
  exact ⟨invokedIds_execCbList _, loggedIds_execCbList _⟩

/-! ## C4: `add_callback` with an unrecognized event -/

/-- C4 counterexample: `add_callback` called with the unrecognized event
name "bogus" does not raise anything — in the faithful embedding it is a
total function with no error outcome — and returns the application state
unchanged (the callback is silently dropped), refuting the claim that an
`UnknownEvent` error is raised or signalled. -/
theorem add_callback_unknown_counterexample :
    add_callback initApp "bogus" ⟨0, false⟩ = initApp := by
  decide

/-- C4 (amended): the recognized event names are exactly `on_page_change`,
`on_app_start`, `on_app_end`; `add_callback` with a recognized name appends
the callback to that event's sequence, and with an unrecognized name it is
a silent no-op returning the state unchanged (no error of any kind). -/
theorem add_callback_contract (st : AppState) (event : String) (cb : Cb) :
    dictKeys initApp.callbacks = ["on_page_change", "on_app_start", "on_app_end"] ∧
    (dictMem st.callbacks event = true →
      dictGetD (add_callback st event cb).callbacks event [] =
        dictGetD st.callbacks event [] ++ [cb]) ∧
    (dictMem st.callbacks event = false → add_callback st event cb = st) := by
  refine ⟨by decide, ?_, ?_⟩
  · intro h
    simp [add_callback, h, dictGetD_insert_self]
  · intro h
    simp [add_callback, h]

/-- Witness for `add_callback_contract`: a recognized event appends, an
unrecognized one is ignored. -/
theorem add_callback_contract_witness :
    dictGetD (add_callback initApp "on_page_change" ⟨0, false⟩).callbacks
        "on_page_change" [] = [⟨0, false⟩] ∧
    add_callback initApp "bogus2" ⟨0, false⟩ = initApp := by
  constructor
  · have h :=
      (add_callback_contract initApp "on_page_change" ⟨0, false⟩).2.1 (by decide)
    simpa using h
  · exact (add_callback_contract initApp "bogus2" ⟨0, false⟩).2.2 (by decide)

/-! ## C1: the navigation-list / registry invariant -/

/-- The names in the navigation list, in order. -/
def navNames (st : AppState) : List String :=
  st.navigation_items.map NavItem.name

/-- A registry operation: one `add_page` or `remove_page` call. -/
inductive Op where
  | add (p : Page)
  | remove (n : String)

/-- Apply one registry operation. -/
def applyOp (st : AppState) : Op → AppState
  | Op.add p => add_page st p
  | Op.remove n => remove_page st n

/-- Apply a sequence of registry operations, left to right. -/
def applyOps (st : AppState) : List Op → AppState
  | [] => st
  | op :: rest => applyOps (applyOp st op) rest

/-- A sequence of operations is fresh from `st` when every `add` uses a
name not registered at the moment of the call. -/
def freshOps (st : AppState) : List Op → Bool
  | [] => true
  | Op.add p :: rest => !dictMem st.pages p.name && freshOps (add_page st p) rest
  | Op.remove n :: rest => freshOps (remove_page st n) rest

/-- The C1 invariant: the navigation names coincide, as an ordered list,
with the registry's key list, and that key list has no duplicates. -/
def navInvariant (st : AppState) : Prop :=
  navNames st = dictKeys st.pages ∧ (dictKeys st.pages).Nodup

theorem not_mem_keys_of_dictMem_false {β : Type} (d : List (String × β)) (key : String)
    (h : dictMem d key = false) : key ∉ dictKeys d := by
  induction d with
  | nil => simp [dictKeys]
  | cons hd tl ih =>
    obtain ⟨k, w⟩ := hd
    by_cases hk : k = key
    · simp [dictMem, dictGet?, hk] at h
    · simp [dictMem, dictGet?, hk] at h
      simp [dictKeys] at ih ⊢
      exact ⟨fun hEq => hk hEq.symm, ih (by simp [dictMem, h])⟩

theorem dictKeys_insert_of_not_mem {β : Type} (d : List (String × β)) (key : String) (v : β)
    (h : dictMem d key = false) :
    dictKeys (dictInsert d key v) = dictKeys d ++ [key] := by
  induction d with
  | nil => simp [dictInsert, dictKeys]
  | cons hd tl ih =>
    obtain ⟨k, w⟩ := hd
    by_cases hk : k = key
    · simp [dictMem, dictGet?, hk] at h
    · simp [dictMem, dictGet?, hk] at h
      simp [dictInsert, hk, dictKeys] at ih ⊢
      exact ih (by simp [dictMem, h])

theorem map_filter_comm {γ : Type} (f : γ → String) (p : String → Bool) (l : List γ) :
    (l.filter (fun x => p (f x))).map f = (l.map f).filter p := by
  induction l with
  | nil => rfl
  | cons hd tl ih =>
    by_cases hp : p (f hd) <;> simp [List.filter_cons, hp, ih]

theorem dictKeys_remove {β : Type} (d : List (String × β)) (key : String) :
    dictKeys (dictRemove d key) = (dictKeys d).filter (fun x => !(x == key)) := by
  unfold dictRemove dictKeys
  exact map_filter_comm Prod.fst (fun x => !(x == key)) d

theorem navInvariant_add_fresh (st : AppState) (p : Page)
    (hfresh : dictMem st.pages p.name = false) (hinv : navInvariant st) :
    navInvariant (add_page st p) := by
  obtain ⟨heq, hnd⟩ := hinv
  have hpages : (add_page st p).pages = dictInsert st.pages p.name p := rfl
  constructor
  · have hnav : navNames (add_page st p) = navNames st ++ [p.name] := by
      simp [add_page, navNames]
    rw [hnav, heq, hpages, dictKeys_insert_of_not_mem st.pages p.name p hfresh]
  · rw [hpages, dictKeys_insert_of_not_mem st.pages p.name p hfresh]
    have hnotmem := not_mem_keys_of_dictMem_false st.pages p.name hfresh
    simp [List.nodup_append, hnd, hnotmem]

theorem navInvariant_remove (st : AppState) (n : String) (hinv : navInvariant st) :
    navInvariant (remove_page st n) := by
  obtain ⟨heq, hnd⟩ := hinv
  by_cases hmem : dictMem st.pages n
  · constructor
    · simp only [remove_page, hmem, if_true, navNames, dictKeys_remove]
      rw [map_filter_comm NavItem.name (fun x => !(x == n)) st.navigation_items]
      rw [show st.navigation_items.map NavItem.name = navNames st from rfl, heq]
    · simp only [remove_page, hmem, if_true, dictKeys_remove]
      exact hnd.filter _
  · simp [remove_page, hmem, navInvariant, heq, hnd]

/-- C1 counterexample: adding the same page name twice from a fresh app
leaves one `pages` entry but two navigation entries — `add_page` on an
already-registered name overwrites the mapping yet still appends a second
navigation item, so the navigation list has a duplicate name and is not a
projection of the key set. -/
theorem nav_registry_counterexample :
    navNames (add_page (add_page initApp ⟨"A", "i", ""⟩) ⟨"A", "i", ""⟩) = ["A", "A"] ∧
    dictKeys (add_page (add_page initApp ⟨"A", "i", ""⟩) ⟨"A", "i", ""⟩).pages = ["A"] ∧
    ¬ (navNames (add_page (add_page initApp ⟨"A", "i", ""⟩) ⟨"A", "i", ""⟩)).Nodup := by
  refine ⟨by decide, by decide, by decide⟩

/-- C1 (amended): for every sequence of `add_page`/`remove_page` calls in
which each `add_page` uses a name not registered at the moment of the call,
the navigation names equal the registry's key list — same set, no
duplicates, insertion order of currently-present keys.  (Calling `add_page`
with an already-registered name overwrites the mapping entry but appends a
second navigation entry, breaking the invariant.) -/
theorem nav_registry_invariant (ops : List Op) (st : AppState)
    (hinv : navInvariant st) (hfresh : freshOps st ops = true) :
    navInvariant (applyOps st ops) := by
  induction ops generalizing st with
  | nil => exact hinv
  | cons op rest ih =>
    cases op with
    | add p =>
      simp only [freshOps, Bool.and_eq_true, Bool.not_eq_true'] at hfresh
      exact ih (add_page st p) (navInvariant_add_fresh st p hfresh.1 hinv) hfresh.2
    | remove n =>
      simp only [freshOps] at hfresh
      exact ih (remove_page st n) (navInvariant_remove st n hinv) hfresh

/-- Witness for `nav_registry_invariant` on a concrete fresh sequence. -/
theorem nav_registry_invariant_witness :
    navInvariant (applyOps initApp
      [Op.add ⟨"Home", "h", ""⟩, Op.add ⟨"Chat", "c", ""⟩, Op.remove "Home"]) :=
  nav_registry_invariant
    [Op.add ⟨"Home", "h", ""⟩, Op.add ⟨"Chat", "c", ""⟩, Op.remove "Home"]
    initApp ⟨rfl, List.nodup_nil⟩ (by decide)

/-! ## The `run` cycle (`StreamlitApp.run`)

`run` is one rendering pass.  Inputs beyond the state: `sel`, the page name
yielded by `render_sidebar` (`none` when the sidebar is disabled or has no
items); `hO`, the hook oracle saying whether invoking a given lifecycle
hook of a given page raises; `rO`, whether a given page's `render` raises.
The result is the event trace performed during the cycle, paired with
either the updated state or the exception that escaped `run` (hook kind and
page name).  Only `render` runs inside a `try`/`except`; hook exceptions
propagate. -/

/-- A lifecycle hook kind. -/
inductive Hook where
  | hInit
  | hLoad
  | hUnload
deriving DecidableEq

/-- The event recorded when a hook is invoked. -/
def hookEvent : Hook → String → Event
  | Hook.hUnload, n => Event.unload n
  | Hook.hInit, n => Event.initE n
  | Hook.hLoad, n => Event.load n

/-- Invoking a lifecycle hook: the invocation is always recorded; the call
raises exactly when the oracle says so. -/
def callHook (hO : Hook → String → Bool) (h : Hook) (n : String) :
    List Event × Except (Hook × String) Unit :=
  ([hookEvent h n],
   if hO h n then Except.error (h, n) else Except.ok ())

/-- The guard `if self.current_page and self.current_page in self.pages:`
— Python string truthiness makes the empty name falsy — returning the page
name when the guard passes. -/
def activeName (cur : Option String) (pages : List (String × Page)) : Option String :=
  match cur with
  | none => none
  | some c => if !(c == "") && dictMem pages c then some c else none

/-- `if selected_page_name is None and self.pages: selected_page_name =
list(self.pages.keys())[0]` — the implicit first-inserted default. -/
def defaultSelection (pages : List (String × Page)) (sel : Option String) :
    Option String :=
  if sel.isNone && !pages.isEmpty then pages.head?.map Prod.fst else sel

/-- The `if selected_page_name != self.current_page:` block of `run`:
unload the old page when present, move the marker, fire `on_page_change`
callbacks, init the new page when present. -/
def updatePhase (st : AppState) (selected : Option String)
    (hO : Hook → String → Bool) : List Event × Except (Hook × String) AppState :=
  if selected = st.current_page then ([], Except.ok st)
  else
    let pUnload :=
      match activeName st.current_page st.pages with
      | some c => callHook hO Hook.hUnload c
      | none => ([], Except.ok ())
    match pUnload with
    | (trU, Except.error e) => (trU, Except.error e)
    | (trU, Except.ok _) =>
      let st2 := { st with current_page := selected }
      let trC := execute_callbacks st2 "on_page_change"
      match activeName st2.current_page st2.pages with
      | some c =>
        match callHook hO Hook.hInit c with
        | (trI, Except.error e) => (trU ++ trC ++ trI, Except.error e)
        | (trI, Except.ok _) => (trU ++ trC ++ trI, Except.ok st2)
      | none => (trU ++ trC, Except.ok st2)

/-- The rendering block of `run`: when a current page is present, call
`on_load` (outside any `try`), then `render` inside `try`/`except` — a
render exception becomes a displayed error plus a log line; otherwise show
the informational or warning message. -/
def renderPhase (st : AppState) (hO : Hook → String → Bool) (rO : String → Bool) :
    List Event × Except (Hook × String) AppState :=
  match activeName st.current_page st.pages with
  | some c =>
    match callHook hO Hook.hLoad c with
    | (trL, Except.error e) => (trL, Except.error e)
    | (trL, Except.ok _) =>
      if rO c then (trL ++ [Event.errorShown c, Event.logError c], Except.ok st)
      else (trL ++ [Event.rendered c], Except.ok st)
  | none =>
    if !st.pages.isEmpty then ([Event.info], Except.ok st)
    else ([Event.warning], Except.ok st)

/-- `StreamlitApp.run`: one cycle — one-time `on_app_start` firing, implicit
default selection, the page-change block, then the rendering block. -/
def run (st : AppState) (sel : Option String) (hO : Hook → String → Bool)
    (rO : String → Bool) : List Event × Except (Hook × String) AppState :=
  let tr0 := if st.app_started then [] else execute_callbacks st "on_app_start"
  let st1 := { st with app_started := true }
  let selected := defaultSelection st1.pages sel
  match updatePhase st1 selected hO with
  | (trM, Except.error e) => (tr0 ++ trM, Except.error e)
  | (trM, Except.ok st2) =>
    match renderPhase st2 hO rO with
    | (trR, res) => (tr0 ++ trM ++ trR, res)

/-- A sequence of `run` cycles driven by a sequence of sidebar selections;
stops at the first cycle whose exception escapes, accumulating the trace. -/
def runCycles (st : AppState) (sels : List (Option String))
    (hO : Hook → String → Bool) (rO : String → Bool) :
    List Event × Except (Hook × String) AppState :=
  match sels with
  | [] => ([], Except.ok st)
  | s :: rest =>
    match run st s hO rO with
    | (tr, Except.error e) => (tr, Except.error e)
    | (tr, Except.ok st') =>
      match runCycles st' rest hO rO with
      | (tr2, res) => (tr ++ tr2, res)

/-- The hook-and-render oracle that never raises. -/
def noRaiseH : Hook → String → Bool := fun _ _ => false

/-- The render oracle that never raises. -/
def noRaiseR : String → Bool := fun _ => false

/-- Occurrences of one event in a trace. -/
def countEv (e : Event) : List Event → Nat
  | [] => 0
  | x :: rest => (if x = e then 1 else 0) + countEv e rest

/-- A two-page application, pages added in order A then B. -/
def appAB : AppState :=
  add_page (add_page initApp ⟨"A", "a", ""⟩) ⟨"B", "b", ""⟩

/-- C2: evaluating `run` on the failing input — pages A and B, sidebar
selections A, B, A over three cycles — shows `on_init` of page A invoked
twice: the code fires `on_init` on every activation (every page change),
not at most once per process lifetime as the spec and `Page.on_init`'s own
docstring ("called when the page is first initialized") state. -/
theorem on_init_refires_on_reactivation :
    countEv (Event.initE "A")
      (runCycles appAB [some "A", some "B", some "A"] noRaiseH noRaiseR).1 = 2 := by
  rfl

/-- C3 counterexample: two consecutive `run` cycles with page A selected
both times are a single activation, yet `on_load` of A is invoked twice —
`run` calls `on_load` on every cycle in which the page is current, so
repeated cycles while the same page stays active do invoke `on_load`
again, contrary to the claim. -/
theorem on_load_every_cycle_counterexample :
    countEv (Event.load "A")
      (runCycles (add_page initApp ⟨"A", "a", ""⟩) [some "A", some "A"]
        noRaiseH noRaiseR).1 = 2 := by
  rfl

/-! ## Behaviour of the phases when no hook raises -/

theorem activeName_mem (cur : Option String) (pages : List (String × Page)) (c : String)
    (h : activeName cur pages = some c) : dictMem pages c = true := by
  cases cur with
  | none => simp [activeName] at h
  | some c0 =>
    simp only [activeName] at h
    by_cases hg : (!(c0 == "") && dictMem pages c0) = true
    · rw [if_pos hg] at h
      obtain rfl : c0 = c := by simpa using h
      exact (Bool.and_eq_true _ _).mp hg |>.2
    · rw [if_neg hg] at h
      simp at h

theorem updatePhase_noRaise (st : AppState) (sel : Option String) :
    (updatePhase st sel noRaiseH).2 = Except.ok { st with current_page := sel } := by
  unfold updatePhase
  by_cases h : sel = st.current_page
  · rw [if_pos h, h]
  · rw [if_neg h]
    cases hA : activeName st.current_page st.pages with
    | none =>
      cases hB : activeName sel st.pages with
      | none => simp [hB]
      | some c => simp [hB, callHook, noRaiseH]
    | some c0 =>
      cases hB : activeName sel st.pages with
      | none => simp [hB, callHook, noRaiseH]
      | some c => simp [hB, callHook, noRaiseH]

theorem renderPhase_noRaise (st : AppState) (rO : String → Bool) :
    (renderPhase st noRaiseH rO).2 = Except.ok st := by
  unfold renderPhase
  cases hA : activeName st.current_page st.pages with
  | none =>
    by_cases hp : st.pages.isEmpty <;> simp [hp]
  | some c =>
    by_cases hr : rO c <;> simp [callHook, noRaiseH, hr]

/-- The state as `run` leaves it when no exception escapes: session flag
set, marker moved to the (defaulted) selection. -/
def postState (st : AppState) (sel : Option String) : AppState :=
  { st with app_started := true, current_page := defaultSelection st.pages sel }

/-- With no hook raising, one `run` cycle decomposes into the three phase
traces and returns `postState`. -/
theorem run_noRaise_eq (st : AppState) (sel : Option String) (rO : String → Bool) :
    run st sel noRaiseH rO =
      ((if st.app_started then [] else execute_callbacks st "on_app_start") ++
         (updatePhase { st with app_started := true }
            (defaultSelection st.pages sel) noRaiseH).1 ++
         (renderPhase (postState st sel) noRaiseH rO).1,
       Except.ok (postState st sel)) := by
  unfold run
  rcases hU : updatePhase { st with app_started := true }
      (defaultSelection st.pages sel) noRaiseH with ⟨trM, rM⟩
  have h2 := updatePhase_noRaise { st with app_started := true }
      (defaultSelection st.pages sel)
  rw [hU] at h2
  simp only at h2
  subst h2
  rcases hR : renderPhase (postState st sel) noRaiseH rO with ⟨trR, rR⟩
  have h3 := renderPhase_noRaise (postState st sel) rO
  rw [hR] at h3
  simp only at h3
  subst h3
  simp only [postState] at hR ⊢
  simp [hU, hR]

/-! ## C6: implicit first-inserted default -/

/-- C6: when the sidebar yields no selection and the registry is non-empty,
`run` makes the first-inserted page (the head of the insertion-ordered
registry) the active page — first-wins, not alphabetical, not last-wins. -/
theorem first_page_default (st : AppState) (rO : String → Bool) (h : st.pages ≠ []) :
    (run st none noRaiseH rO).2 = Except.ok (postState st none) ∧
    (postState st none).current_page = st.pages.head?.map Prod.fst := by
  constructor
  · rw [run_noRaise_eq]
  · have hne : st.pages.isEmpty = false := by
      cases hp : st.pages with
      | nil => exact absurd hp h
      | cons hd tl => rfl
    simp [postState, defaultSelection, hne]

/-- The spec's example application: pages Home, Chat, Settings added in
that order. -/
def appHCS : AppState :=
  add_page (add_page (add_page initApp ⟨"Home", "h", ""⟩) ⟨"Chat", "c", ""⟩)
    ⟨"Settings", "s", ""⟩

/-- Witness for `first_page_default` on the spec's Home/Chat/Settings
example: the implicit default is Home. -/
theorem first_page_default_witness :
    (run appHCS none noRaiseH noRaiseR).2 = Except.ok (postState appHCS none) ∧
    (postState appHCS none).current_page = some "Home" := by
  have h := first_page_default appHCS noRaiseR (by decide)
  exact ⟨h.1, by rw [h.2]; rfl⟩

/-! ## Per-cycle lifecycle hook counts -/

theorem countEv_append (e : Event) (a b : List Event) :
    countEv e (a ++ b) = countEv e a + countEv e b := by
  induction a with
  | nil => simp [countEv]
  | cons x rest ih => simp [countEv, ih, Nat.add_assoc]

theorem countEv_execCbList_unload (c : String) (l : List Cb) :
    countEv (Event.unload c) (execCbList l) = 0 := by
  induction l with
  | nil => rfl
  | cons cb rest ih =>
    by_cases h : cb.fails <;> simp [execCbList, callbackCall, h, countEv, ih]

theorem countEv_execCbList_load (c : String) (l : List Cb) :
    countEv (Event.load c) (execCbList l) = 0 := by
  induction l with
  | nil => rfl
  | cons cb rest ih =>
    by_cases h : cb.fails <;> simp [execCbList, callbackCall, h, countEv, ih]

theorem updatePhase_count_unload (st : AppState) (sel : Option String) (c : String) :
    countEv (Event.unload c) (updatePhase st sel noRaiseH).1 =
      if sel ≠ st.current_page ∧ activeName st.current_page st.pages = some c
      then 1 else 0 := by
  unfold updatePhase
  by_cases h : sel = st.current_page
  · simp [h, countEv]
  · rw [if_neg h]
    cases hA : activeName st.current_page st.pages with
    | none =>
      cases hB : activeName sel st.pages with
      | none =>
        simp [h, hA, hB, countEv_append, countEv, countEv_execCbList_unload,
          execute_callbacks]
      | some c1 =>
        simp [h, hA, hB, callHook, noRaiseH, hookEvent, countEv_append, countEv,
          countEv_execCbList_unload, execute_callbacks]
    | some c0 =>
      by_cases hc : c0 = c
      · subst hc
        cases hB : activeName sel st.pages with
        | none =>
          simp [h, hA, hB, callHook, noRaiseH, hookEvent, countEv_append, countEv,
            countEv_execCbList_unload, execute_callbacks]
        | some c1 =>
          simp [h, hA, hB, callHook, noRaiseH, hookEvent, countEv_append, countEv,
            countEv_execCbList_unload, execute_callbacks]
      · cases hB : activeName sel st.pages with
        | none =>
          simp [h, hA, hB, hc, callHook, noRaiseH, hookEvent, countEv_append, countEv,
            countEv_execCbList_unload, execute_callbacks]
        | some c1 =>
          simp [h, hA, hB, hc, callHook, noRaiseH, hookEvent, countEv_append, countEv,
            countEv_execCbList_unload, execute_callbacks]

theorem updatePhase_count_load (st : AppState) (sel : Option String) (c : String) :
    countEv (Event.load c) (updatePhase st sel noRaiseH).1 = 0 := by
  unfold updatePhase
  by_cases h : sel = st.current_page
  · simp [h, countEv]
  · rw [if_neg h]
    cases hA : activeName st.current_page st.pages with
    | none =>
      cases hB : activeName sel st.pages with
      | none =>
        simp [hB, countEv_append, countEv, countEv_execCbList_load, execute_callbacks]
      | some c1 =>
        simp [hB, callHook, noRaiseH, hookEvent, countEv_append, countEv,
          countEv_execCbList_load, execute_callbacks]
    | some c0 =>
      cases hB : activeName sel st.pages with
      | none =>
        simp [hB, callHook, noRaiseH, hookEvent, countEv_append, countEv,
          countEv_execCbList_load, execute_callbacks]
      | some c1 =>
        simp [hB, callHook, noRaiseH, hookEvent, countEv_append, countEv,
          countEv_execCbList_load, execute_callbacks]

theorem renderPhase_count_load (st : AppState) (rO : String → Bool) (c : String) :
    countEv (Event.load c) (renderPhase st noRaiseH rO).1 =
      if activeName st.current_page st.pages = some c then 1 else 0 := by
  unfold renderPhase
  cases hA : activeName st.current_page st.pages with
  | none =>
    by_cases hp : st.pages.isEmpty <;> simp [hp, countEv]
  | some c0 =>
    by_cases hc : c0 = c
    · subst hc
      by_cases hr : rO c0 <;>
        simp [callHook, noRaiseH, hookEvent, hr, countEv_append, countEv]
    · by_cases hr : rO c0 <;>
        simp [callHook, noRaiseH, hookEvent, hr, hc, countEv_append, countEv]

theorem renderPhase_count_unload (st : AppState) (rO : String → Bool) (c : String) :
    countEv (Event.unload c) (renderPhase st noRaiseH rO).1 = 0 := by
  unfold renderPhase
  cases hA : activeName st.current_page st.pages with
  | none =>
    by_cases hp : st.pages.isEmpty <;> simp [hp, countEv]
  | some c0 =>
    by_cases hr : rO c0 <;> simp [callHook, noRaiseH, hookEvent, hr, countEv_append, countEv]

/-- C3 (amended): in every `run` cycle (no hook raising), `on_unload` of a
page fires exactly once when this cycle deactivates it — the (defaulted)
selection differs from the marker and the page is the present current page
— and never otherwise; `on_load` of a page fires exactly once whenever the
page is the present current page at render time, i.e. on every cycle in
which it stays active, not merely on the activation cycle. -/
theorem lifecycle_counts (st : AppState) (sel : Option String) (rO : String → Bool)
    (c : String) :
    countEv (Event.unload c) (run st sel noRaiseH rO).1 =
      (if defaultSelection st.pages sel ≠ st.current_page ∧
          activeName st.current_page st.pages = some c then 1 else 0) ∧
    countEv (Event.load c) (run st sel noRaiseH rO).1 =
      (if activeName (defaultSelection st.pages sel) st.pages = some c
       then 1 else 0) := by
  rw [run_noRaise_eq]
  have htr0u : countEv (Event.unload c)
      (if st.app_started then [] else execute_callbacks st "on_app_start") = 0 := by
    by_cases h : st.app_started <;>
      simp [h, countEv, execute_callbacks, countEv_execCbList_unload]
  have htr0l : countEv (Event.load c)
      (if st.app_started then [] else execute_callbacks st "on_app_start") = 0 := by
    by_cases h : st.app_started <;>
      simp [h, countEv, execute_callbacks, countEv_execCbList_load]
  constructor
  · simp only [countEv_append, htr0u,
      updatePhase_count_unload, renderPhase_count_unload]
    simp [postState]
  · simp only [countEv_append, htr0l,
      updatePhase_count_load, renderPhase_count_load]
    simp [postState]

/-! ## C7: rendering exceptions are non-fatal -/

theorem activeName_some_eq (cur : Option String) (pages : List (String × Page)) (c : String)
    (h : activeName cur pages = some c) : cur = some c := by
  cases cur with
  | none => simp [activeName] at h
  | some c0 =>
    simp only [activeName] at h
    by_cases hg : (!(c0 == "") && dictMem pages c0) = true
    · rw [if_pos hg] at h
      simpa using h
    · rw [if_neg hg] at h
      simp at h

theorem renderPhase_trace_renderError (st : AppState) (rO : String → Bool) (c : String)
    (hA : activeName st.current_page st.pages = some c) (hr : rO c = true) :
    (renderPhase st noRaiseH rO).1 =
      [Event.load c, Event.errorShown c, Event.logError c] := by
  unfold renderPhase
  rw [hA]
  simp [callHook, noRaiseH, hookEvent, hr]

/-- C7: when the active page's `render` raises, the cycle still returns
normally (the exception is caught at the `try` in `run`), the resulting
state is identical to the one a non-raising render would produce — in
particular the active-page marker still points at the same page, so the
next cycle retries it — and the trace records the displayed error and the
log line. -/
theorem render_error_nonfatal (st : AppState) (sel : Option String) (rO : String → Bool)
    (c : String)
    (hA : activeName (defaultSelection st.pages sel) st.pages = some c)
    (hr : rO c = true) :
    (run st sel noRaiseH rO).2 = Except.ok (postState st sel) ∧
    (postState st sel).current_page = some c ∧
    (run st sel noRaiseH rO).2 = (run st sel noRaiseH noRaiseR).2 ∧
    Event.errorShown c ∈ (run st sel noRaiseH rO).1 ∧
    Event.logError c ∈ (run st sel noRaiseH rO).1 := by
  have hcur : defaultSelection st.pages sel = some c := activeName_some_eq _ _ _ hA
  have htr : (renderPhase (postState st sel) noRaiseH rO).1 =
      [Event.load c, Event.errorShown c, Event.logError c] :=
    renderPhase_trace_renderError (postState st sel) rO c hA hr
  refine ⟨by rw [run_noRaise_eq], by simp [postState, hcur],
    by rw [run_noRaise_eq, run_noRaise_eq], ?_, ?_⟩ <;>
  · rw [run_noRaise_eq]
    simp [htr]

/-- Witness for `render_error_nonfatal`: page A's render raises. -/
theorem render_error_nonfatal_witness :
    (run appAB (some "A") noRaiseH (fun n => n == "A")).2 =
      Except.ok (postState appAB (some "A")) ∧
    (postState appAB (some "A")).current_page = some "A" ∧
    (run appAB (some "A") noRaiseH (fun n => n == "A")).2 =
      (run appAB (some "A") noRaiseH noRaiseR).2 ∧
    Event.errorShown "A" ∈ (run appAB (some "A") noRaiseH (fun n => n == "A")).1 ∧
    Event.logError "A" ∈ (run appAB (some "A") noRaiseH (fun n => n == "A")).1 :=
  render_error_nonfatal appAB (some "A") (fun n => n == "A") "A" (by decide) (by decide)

/-! ## C9: lifecycle hook exceptions escape `run` -/

theorem updatePhase_oracle_eq (st : AppState) (sel : Option String)
    (hO : Hook → String → Bool)
    (hU : ∀ n, hO Hook.hUnload n = false) (hI : ∀ n, hO Hook.hInit n = false) :
    updatePhase st sel hO = updatePhase st sel noRaiseH := by
  unfold updatePhase
  by_cases h : sel = st.current_page
  · simp [h]
  · rw [if_neg h, if_neg h]
    cases hA : activeName st.current_page st.pages with
    | none =>
      cases hB : activeName sel st.pages with
      | none => simp [hB]
      | some c1 => simp [hB, callHook, hU, hI, noRaiseH]
    | some c0 =>
      cases hB : activeName sel st.pages with
      | none => simp [hB, callHook, hU, hI, noRaiseH]
      | some c1 => simp [hB, callHook, hU, hI, noRaiseH]

theorem renderPhase_load_raises (st : AppState) (hO : Hook → String → Bool)
    (rO : String → Bool) (c : String)
    (hA : activeName st.current_page st.pages = some c)
    (hr : hO Hook.hLoad c = true) :
    (renderPhase st hO rO).2 = Except.error (Hook.hLoad, c) := by
  unfold renderPhase
  rw [hA]
  simp [callHook, hr]

theorem updatePhase_unload_raises (st : AppState) (sel : Option String)
    (hO : Hook → String → Bool) (c : String)
    (h : sel ≠ st.current_page)
    (hA : activeName st.current_page st.pages = some c)
    (hr : hO Hook.hUnload c = true) :
    (updatePhase st sel hO).2 = Except.error (Hook.hUnload, c) := by
  unfold updatePhase
  rw [if_neg h, hA]
  simp [callHook, hr]

theorem updatePhase_init_raises (st : AppState) (sel : Option String)
    (hO : Hook → String → Bool) (c : String)
    (h : sel ≠ st.current_page)
    (hB : activeName sel st.pages = some c)
    (hU : ∀ n, hO Hook.hUnload n = false)
    (hr : hO Hook.hInit c = true) :
    (updatePhase st sel hO).2 = Except.error (Hook.hInit, c) := by
  unfold updatePhase
  rw [if_neg h]
  cases hA : activeName st.current_page st.pages with
  | none => simp [hB, callHook, hU, hr]
  | some c0 => simp [hB, callHook, hU, hr]

/-- The outcome of `run` is the outcome of the update phase, or of the
render phase when the update phase returns normally. -/
theorem run_snd (st : AppState) (sel : Option String) (hO : Hook → String → Bool)
    (rO : String → Bool) :
    (run st sel hO rO).2 =
      (match (updatePhase { st with app_started := true }
          (defaultSelection st.pages sel) hO).2 with
       | Except.error e => Except.error e
       | Except.ok st2 => (renderPhase st2 hO rO).2) := by
  unfold run
  rcases hU : updatePhase { st with app_started := true }
      (defaultSelection st.pages sel) hO with ⟨trM, rM⟩
  cases rM with
  | error e => simp [hU]
  | ok st2 =>
    rcases hR : renderPhase st2 hO rO with ⟨trR, rR⟩
    simp [hU, hR]

/-- C9: only `render` runs inside the `try`/`except` of `run`.  A render
exception never escapes — with no hook raising, `run` returns normally for
every render oracle — while an exception in `on_load`, `on_unload` or
`on_init` propagates out of `run` as the hook's own exception. -/
theorem hook_exceptions_escape (st : AppState) (sel : Option String)
    (rO : String → Bool) (c : String) :
    ((run st sel noRaiseH rO).2 = Except.ok (postState st sel)) ∧
    (activeName (defaultSelection st.pages sel) st.pages = some c →
      (run st sel (fun h _ => h == Hook.hLoad) rO).2 =
        Except.error (Hook.hLoad, c)) ∧
    (defaultSelection st.pages sel ≠ st.current_page →
      activeName st.current_page st.pages = some c →
      (run st sel (fun h _ => h == Hook.hUnload) rO).2 =
        Except.error (Hook.hUnload, c)) ∧
    (defaultSelection st.pages sel ≠ st.current_page →
      activeName (defaultSelection st.pages sel) st.pages = some c →
      (run st sel (fun h _ => h == Hook.hInit) rO).2 =
        Except.error (Hook.hInit, c)) := by
  refine ⟨by rw [run_noRaise_eq], ?_, ?_, ?_⟩
  · intro hA
    rw [run_snd]
    rw [updatePhase_oracle_eq _ _ _ (fun n => rfl) (fun n => rfl)]
    rw [updatePhase_noRaise]
    exact renderPhase_load_raises _ _ rO c hA rfl
  · intro h hA
    rw [run_snd]
    rw [updatePhase_unload_raises { st with app_started := true }
      (defaultSelection st.pages sel) (fun h _ => h == Hook.hUnload) c h hA rfl]
  · intro h hB
    rw [run_snd]
    rw [updatePhase_init_raises { st with app_started := true }
      (defaultSelection st.pages sel) (fun h _ => h == Hook.hInit) c h hB
      (fun n => rfl) rfl]

/-- The application `appAB` with page A currently active. -/
def appABactiveA : AppState := { appAB with current_page := some "A" }

/-- Witness for `hook_exceptions_escape` at concrete inputs. -/
theorem hook_exceptions_escape_witness :
    ((run appAB (some "A") noRaiseH noRaiseR).2 =
      Except.ok (postState appAB (some "A"))) ∧
    ((run appAB (some "A") (fun h _ => h == Hook.hLoad) noRaiseR).2 =
      Except.error (Hook.hLoad, "A")) ∧
    ((run appABactiveA (some "B") (fun h _ => h == Hook.hUnload) noRaiseR).2 =
      Except.error (Hook.hUnload, "A")) ∧
    ((run appAB (some "A") (fun h _ => h == Hook.hInit) noRaiseR).2 =
      Except.error (Hook.hInit, "A")) :=
  ⟨(hook_exceptions_escape appAB (some "A") noRaiseR "A").1,
   (hook_exceptions_escape appAB (some "A") noRaiseR "A").2.1 (by decide),
   (hook_exceptions_escape appABactiveA (some "B") noRaiseR "A").2.2.1
     (by decide) (by decide),
   (hook_exceptions_escape appAB (some "A") noRaiseR "A").2.2.2
     (by decide) (by decide)⟩

/-! ## C10: every hook or render invocation is on a registered page -/

/-- The page a trace event dereferences, when it is a lifecycle hook
invocation or a render attempt. -/
def evPage : Event → Option String
  | Event.unload n => some n
  | Event.initE n => some n
  | Event.load n => some n
  | Event.rendered n => some n
  | Event.errorShown n => some n
  | _ => none

/-- Whether every hook/render invocation in a trace dereferences a key of
the given registry. -/
def guardedB (pages : List (String × Page)) : List Event → Bool
  | [] => true
  | e :: tr =>
      (match evPage e with
       | some n => dictMem pages n
       | none => true) && guardedB pages tr

theorem guardedB_append (pages : List (String × Page)) (a b : List Event) :
    guardedB pages (a ++ b) = (guardedB pages a && guardedB pages b) := by
  induction a with
  | nil => simp [guardedB]
  | cons e tr ih => simp [guardedB, ih, Bool.and_assoc]

theorem guardedB_execCbList (pages : List (String × Page)) (l : List Cb) :
    guardedB pages (execCbList l) = true := by
  induction l with
  | nil => rfl
  | cons cb rest ih =>
    by_cases h : cb.fails <;>
      simp [execCbList, callbackCall, h, guardedB, evPage, ih]

theorem updatePhase_guarded (st : AppState) (sel : Option String)
    (hO : Hook → String → Bool) :
    guardedB st.pages (updatePhase st sel hO).1 = true := by
  unfold updatePhase
  by_cases h : sel = st.current_page
  · simp [h, guardedB]
  · rw [if_neg h]
    cases hA : activeName st.current_page st.pages with
    | none =>
      cases hB : activeName sel st.pages with
      | none =>
        simp [hB, execute_callbacks, guardedB_execCbList]
      | some c1 =>
        have hc1 := activeName_mem sel st.pages c1 hB
        by_cases hi : hO Hook.hInit c1 = true <;>
          simp [hB, callHook, hookEvent, hi, guardedB_append, guardedB_execCbList,
            execute_callbacks, guardedB, evPage, hc1]
    | some c0 =>
      have hc0 := activeName_mem st.current_page st.pages c0 hA
      by_cases hu : hO Hook.hUnload c0 = true
      · simp [callHook, hookEvent, hu, guardedB, evPage, hc0]
      · cases hB : activeName sel st.pages with
        | none =>
          simp [hB, callHook, hookEvent, hu, guardedB_append, guardedB_execCbList,
            execute_callbacks, guardedB, evPage, hc0]
        | some c1 =>
          have hc1 := activeName_mem sel st.pages c1 hB
          by_cases hi : hO Hook.hInit c1 = true <;>
            simp [hB, callHook, hookEvent, hu, hi, guardedB_append,
              guardedB_execCbList, execute_callbacks, guardedB, evPage, hc0, hc1]

theorem renderPhase_guarded (st : AppState) (hO : Hook → String → Bool)
    (rO : String → Bool) :
    guardedB st.pages (renderPhase st hO rO).1 = true := by
  unfold renderPhase
  cases hA : activeName st.current_page st.pages with
  | none =>
    by_cases hp : st.pages.isEmpty <;> simp [hp, guardedB, evPage]
  | some c =>
    have hc := activeName_mem st.current_page st.pages c hA
    by_cases hl : hO Hook.hLoad c = true
    · simp [callHook, hookEvent, hl, guardedB, evPage, hc]
    · by_cases hr : rO c = true <;>
        simp [callHook, hookEvent, hl, hr, guardedB_append, guardedB, evPage, hc]

theorem updatePhase_ok (st : AppState) (sel : Option String)
    (hO : Hook → String → Bool) (trM : List Event) (st2 : AppState)
    (hU : updatePhase st sel hO = (trM, Except.ok st2)) :
    st2 = { st with current_page := sel } := by
  unfold updatePhase at hU
  by_cases h : sel = st.current_page
  · rw [if_pos h] at hU
    injection hU with h1 h2
    injection h2 with h3
    rw [← h3, h]
  · rw [if_neg h] at hU
    cases hA : activeName st.current_page st.pages with
    | none =>
      simp only [hA] at hU
      cases hB : activeName sel st.pages with
      | none =>
        simp only [hB] at hU
        simp at hU
        exact hU.2.symm
      | some c1 =>
        simp only [hB] at hU
        by_cases hi : hO Hook.hInit c1 = true <;> simp [callHook, hi] at hU
        exact hU.2.symm
    | some c0 =>
      simp only [hA] at hU
      by_cases hu : hO Hook.hUnload c0 = true
      · simp [callHook, hu] at hU
      · cases hB : activeName sel st.pages with
        | none =>
          simp only [hB] at hU
          simp [callHook, hu] at hU
          exact hU.2.symm
        | some c1 =>
          simp only [hB] at hU
          by_cases hi : hO Hook.hInit c1 = true <;>
            simp [callHook, hu, hi] at hU
          exact hU.2.symm

theorem renderPhase_trace_noActive (st : AppState) (hO : Hook → String → Bool)
    (rO : String → Bool)
    (hA : activeName st.current_page st.pages = none)
    (hne : st.pages.isEmpty = false) :
    (renderPhase st hO rO).1 = [Event.info] := by
  unfold renderPhase
  rw [hA]
  simp [hne]

/-- C10: `run` never invokes a lifecycle hook or `render` on a page name
absent from the registry — every dereferenced name in the cycle's trace is
a key of `pages`, for every selection and every raising behaviour — and
when the (defaulted) selection fails the membership guard while the
registry is non-empty, the cycle falls through to the informational
branch. -/
theorem run_hook_guarded (st : AppState) (sel : Option String)
    (hO : Hook → String → Bool) (rO : String → Bool) :
    guardedB st.pages (run st sel hO rO).1 = true ∧
    (activeName (defaultSelection st.pages sel) st.pages = none → st.pages ≠ [] →
      Event.info ∈ (run st sel noRaiseH rO).1) := by
  constructor
  · have h0 : guardedB st.pages (if st.app_started then []
        else execute_callbacks st "on_app_start") = true := by
      by_cases hs : st.app_started <;>
        simp [hs, guardedB, execute_callbacks, guardedB_execCbList]
    unfold run
    rcases hU : updatePhase { st with app_started := true }
        (defaultSelection st.pages sel) hO with ⟨trM, rM⟩
    have hM := updatePhase_guarded { st with app_started := true }
        (defaultSelection st.pages sel) hO
    rw [hU] at hM
    cases rM with
    | error e =>
      simp [hU, guardedB_append, h0, hM]
    | ok st2 =>
      have hst2 : st2 = postState st sel := updatePhase_ok _ _ _ _ _ hU
      rcases hR : renderPhase st2 hO rO with ⟨trR, rR⟩
      have hRG := renderPhase_guarded st2 hO rO
      rw [hR] at hRG
      rw [hst2] at hRG
      simp only [postState] at hRG
      simp [hU, hR, guardedB_append, h0, hM, hRG]
  · intro hA hne
    have hempty : st.pages.isEmpty = false := by
      cases hp : st.pages with
      | nil => exact absurd hp hne
      | cons hd tl => rfl
    rw [run_noRaise_eq]
    have htr : (renderPhase (postState st sel) noRaiseH rO).1 = [Event.info] :=
      renderPhase_trace_noActive (postState st sel) noRaiseH rO hA hempty
    simp [htr]

/-- The application `appAB` after activating page A and then removing it:
the active-page marker dangles. -/
def appDangling : AppState := remove_page appABactiveA "A"

/-- Witness for `run_hook_guarded`: with a dangling marker and a stale
selection naming the removed page, every dereference is still guarded and
the informational branch is shown. -/
theorem run_hook_guarded_witness :
    guardedB appDangling.pages (run appDangling (some "A") noRaiseH noRaiseR).1 = true ∧
    Event.info ∈ (run appDangling (some "A") noRaiseH noRaiseR).1 :=
  ⟨(run_hook_guarded appDangling (some "A") noRaiseH noRaiseR).1,
   (run_hook_guarded appDangling (some "A") noRaiseH noRaiseR).2
     (by decide) (by decide)⟩

end StreamlitUI
